import Mathlib

/-!
A verification development for the `smale` package (`smale/smale.py`): a
shallow embedding over exact complex/real arithmetic of the four functions
`smale_beta`, `smale_gamma`, `smale_alpha` and `smale_newton`, together with
theorems settling the specified properties.

Python callables `f(x, *args)` are embedded as functions `ℂ → List ℂ → ℂ`;
`numpy.abs` on a complex value is the complex absolute value; the float power
`** (1./k)` is the real power `Real.rpow`.  Computations that raise in Python
(the empty-array reduction in `smale_gamma`, propagated through `smale_alpha`
and `smale_newton`) are `Option`-valued, with `none` for the raised error.
The external solver `scipy.optimize.newton` is a black-box parameter that
receives the full argument record of the call and may itself fail.
-/

namespace Smale

/-- A target function or a derivative: the evaluation point plus the extra
`args`, returning a (possibly complex) value. -/
abbrev F : Type := ℂ → List ℂ → ℂ

/-- Maximum of a list of reals; fails on the empty list, as `numpy`'s
`ndarray.max` raises on an empty array. -/
def listMax : List ℝ → Option ℝ
  | [] => none
  | x :: xs => some (xs.foldl max x)

noncomputable section

/-- The loop of `smale_gamma`: starting from the running `scale` and loop
index `k`, each step divides the scale by `k + 1` and records
`|scale * df[k](x0, *args)| ** (1/k)`, where `dvals` holds the remaining
derivative values `df[k](x0, *args), df[k+1](x0, *args), ...`. -/
def gammaScan (scale : ℂ) (k : ℕ) (dvals : List ℂ) : List ℝ :=
  match dvals with
  | [] => []
  | d :: rest =>
    let scale2 := scale / ((k : ℂ) + 1)
    Complex.abs (scale2 * d) ^ ((1 : ℝ) / (k : ℝ)) :: gammaScan scale2 (k + 1) rest

/-- The function `smale_beta`: `numpy.abs(f(*_args) / df[0](*_args))` with
`_args = (x0,) + args`. -/
def smale_beta (f : F) (x0 : ℂ) (df : List F) (args : List ℂ) : ℝ :=
  Complex.abs (f x0 args / df.headI x0 args)

/-- The function `smale_gamma`: scans derivatives `df[1], df[2], ...` with the running
scale initialised to `1 / df[0](x0, *args)` and returns the maximum recorded
term; `none` when fewer than two derivatives are supplied (in the source,
`numpy.zeros(-1)` or the empty-array `max()` raises). -/
def smale_gamma (f : F) (x0 : ℂ) (df : List F) (args : List ℂ) : Option ℝ :=
  listMax (gammaScan (1 / df.headI x0 args) 1 ((df.drop 1).map fun d => d x0 args))

/-- The function `smale_alpha`: `smale_beta(f,x0,df,args) * smale_gamma(f,x0,df,args)`,
propagating a failure of the gamma computation. -/
def smale_alpha (f : F) (x0 : ℂ) (df : List F) (args : List ℂ) : Option ℝ :=
  (smale_gamma f x0 df args).map fun g => smale_beta f x0 df args * g

/-- The two `RuntimeWarning` messages `smale_newton` can emit. -/
inductive SmaleWarning
  | notEnoughDerivatives
  | notApproximateSolution
deriving DecidableEq

/-- The argument record of one call to the external `scipy.optimize.newton`. -/
structure NewtonCall where
  f : F
  x0 : ℂ
  fprime : Option F
  args : List ℂ
  tol : ℝ
  maxiter : ℕ

/-- The external Newton solver: a black box receiving the call record and
returning a root estimate or its own failure. -/
abbrev NewtonSolver : Type := NewtonCall → Except String ℂ

/-- The function `smale_newton`: warn when fewer than two derivatives are given, otherwise
compute alpha and warn when it exceeds the threshold `0.15767078078675478`;
then run the external Newton iteration with `fprime = df[0]` when `df` is
nonempty, and return its result.  The outer `Option` propagates an exception
of the certification computation itself (never reached, since the alpha path
is guarded by `len(df) ≥ 2`). -/
def smale_newton (newton : NewtonSolver) (f : F) (x0 : ℂ) (df : List F)
    (args : List ℂ) (tol : ℝ) (maxiter : ℕ) :
    Option (List SmaleWarning × Except String ℂ) :=
  let warnOpt : Option (List SmaleWarning) :=
    if df.length < 2 then some [SmaleWarning.notEnoughDerivatives]
    else (smale_alpha f x0 df args).map fun alpha =>
      if 0.15767078078675478 < alpha then [SmaleWarning.notApproximateSolution] else []
  let fprime : Option F := if 0 < df.length then some df.headI else none
  warnOpt.map fun warns => (warns, newton ⟨f, x0, fprime, args, tol, maxiter⟩)

/-- Written from the spec's classical formula, not from the source: the
order-`k` term `|f^(k)(x0) / (k! f'(x0))|^(1/(k-1))`, where `df.getD (k-1)`
is the k-th derivative `f^(k)` (so `df.getD 0` is `f'`). -/
def classicalGammaTerm (x0 : ℂ) (df : List F) (args : List ℂ) (k : ℕ) : ℝ :=
  Complex.abs (df.getD (k - 1) (fun _ _ => 0) x0 args /
      ((k.factorial : ℂ) * df.headI x0 args)) ^ ((1 : ℝ) / ((k - 1 : ℕ) : ℝ))

/-- Written from the spec's words, not from the source: the maximum over
derivative orders `k` from 2 up to `df.length` of the classical term. -/
def smale_gamma_spec (f : F) (x0 : ℂ) (df : List F) (args : List ℂ) : Option ℝ :=
  listMax ((List.range (df.length - 1)).map fun i => classicalGammaTerm x0 df args (i + 2))

/-- Concrete fixture: the constantly-zero target function. -/
def fW : F := fun _ _ => 0

/-- Concrete fixture: a first derivative constantly one. -/
def d1W : F := fun _ _ => 1

/-- Concrete fixture: a second derivative constantly zero. -/
def d2W : F := fun _ _ => 0

/-- Concrete fixture: a two-element derivative list. -/
def dfW : List F := [d1W, d2W]

/-- Concrete fixture: an external solver that always returns 0. -/
def ntW : NewtonSolver := fun _ => Except.ok 0

end

/-! ### Helper lemmas -/

theorem gammaScan_length (scale : ℂ) (k : ℕ) (dvals : List ℂ) :
    (gammaScan scale k dvals).length = dvals.length := by
  induction dvals generalizing scale k with
  | nil => rfl
  | cons d rest ih => simp [gammaScan, ih]

theorem gammaScan_nonneg (scale : ℂ) (k : ℕ) (dvals : List ℂ) :
    ∀ x ∈ gammaScan scale k dvals, 0 ≤ x := by
  induction dvals generalizing scale k with
  | nil => intro x hx; simp [gammaScan] at hx
  | cons d rest ih =>
    intro x hx
    simp only [gammaScan, List.mem_cons] at hx
    rcases hx with rfl | hx
    · exact Real.rpow_nonneg (AbsoluteValue.nonneg _ _) _
    · exact ih _ _ x hx

theorem listMax_of_ne_nil {l : List ℝ} (h : l ≠ []) : ∃ m, listMax l = some m := by
  cases l with
  | nil => exact absurd rfl h
  | cons x xs => exact ⟨_, rfl⟩

theorem foldl_max_nonneg {l : List ℝ} {a : ℝ} (ha : 0 ≤ a)
    (h : ∀ x ∈ l, 0 ≤ x) : 0 ≤ l.foldl max a := by
  induction l generalizing a with
  | nil => exact ha
  | cons x xs ih =>
    exact ih (le_trans ha (le_max_left a x)) fun y hy => h y (List.mem_cons_of_mem x hy)

theorem listMax_nonneg {l : List ℝ} {m : ℝ} (h : ∀ x ∈ l, 0 ≤ x)
    (hm : listMax l = some m) : 0 ≤ m := by
  cases l with
  | nil => simp [listMax] at hm
  | cons x xs =>
    simp only [listMax, Option.some.injEq] at hm
    rw [← hm]
    exact foldl_max_nonneg (h x (List.mem_cons_self x xs)) fun y hy =>
      h y (List.mem_cons_of_mem x hy)

theorem getD_map_eval (l : List F) (x0 : ℂ) (args : List ℂ) (i : ℕ) :
    (l.map fun d => d x0 args).getD i 0 = l.getD i (fun _ _ => 0) x0 args := by
  induction l generalizing i with
  | nil => simp [List.getD]
  | cons a t ih =>
    cases i with
    | zero => simp
    | succ n => simpa using ih n

theorem gammaScan_closed (d0 : ℂ) (dvals : List ℂ) : ∀ k : ℕ,
    gammaScan (1 / (d0 * (k.factorial : ℂ))) k dvals =
      (List.range dvals.length).map fun i =>
        Complex.abs (dvals.getD i 0 / (((k + i + 1).factorial : ℂ) * d0)) ^
          ((1 : ℝ) / ((k + i : ℕ) : ℝ)) := by
  induction dvals with
  | nil => intro k; simp [gammaScan]
  | cons d rest ih =>
    intro k
    have hscale : (1 / (d0 * (k.factorial : ℂ))) / ((k : ℂ) + 1) =
        1 / (d0 * (((k + 1).factorial : ℕ) : ℂ)) := by
      rw [Nat.factorial_succ, div_div]
      push_cast
      ring_nf
    simp only [gammaScan]
    rw [hscale, ih (k + 1), List.length_cons, List.range_succ_eq_map, List.map_cons,
      List.map_map]
    congr 1
    · have hd : (1 / (d0 * (((k + 1).factorial : ℕ) : ℂ))) * d =
          d / ((((k + 1).factorial : ℕ) : ℂ) * d0) := by ring
      simp only [hd, List.getD_cons_zero, Nat.add_zero]
    · apply List.map_congr_left
      intro i hi
      have h1 : k + 1 + i + 1 = k + (i + 1) + 1 := by omega
      have h2 : k + 1 + i = k + (i + 1) := by omega
      simp [Function.comp, List.getD_cons_succ, h1, h2]

theorem smale_gamma_isSome (f : F) (x0 : ℂ) (df : List F) (args : List ℂ)
    (h : 2 ≤ df.length) : ∃ g, smale_gamma f x0 df args = some g := by
  cases df with
  | nil => simp at h
  | cons a t =>
    cases t with
    | nil => simp at h
    | cons b u =>
      apply listMax_of_ne_nil
      intro hnil
      have := gammaScan_length (1 / (a :: b :: u).headI x0 args) 1
        (((a :: b :: u).drop 1).map fun d => d x0 args)
      rw [hnil] at this
      simp at this

/-! ### Claim theorems -/

/-- C1: with at least two derivatives and a nonzero first derivative value at
`x0`, `smale_gamma` returns the maximum, over derivative orders `k` from 2 up
to `len(df)`, of the classical term `|f^(k)(x0) / (k! f'(x0))|^(1/(k-1))`:
it agrees with the specification-side `smale_gamma_spec` and does return a
value. -/
theorem smale_gamma_eq_classical (f : F) (x0 : ℂ) (df : List F) (args : List ℂ)
    (h : 2 ≤ df.length) (h0 : df.headI x0 args ≠ 0) :
    smale_gamma f x0 df args = smale_gamma_spec f x0 df args ∧
      ∃ g, smale_gamma f x0 df args = some g := by
  refine ⟨?_, smale_gamma_isSome f x0 df args h⟩
  cases df with
  | nil => simp at h
  | cons a rest =>
    unfold smale_gamma smale_gamma_spec
    congr 1
    have hone : (1 : ℂ) / ((a :: rest).headI x0 args) =
        1 / ((a :: rest).headI x0 args * ((Nat.factorial 1 : ℕ) : ℂ)) := by
      norm_num [Nat.factorial]
    rw [hone, gammaScan_closed, List.length_map, List.drop_one, List.tail_cons,
      List.length_cons, Nat.succ_sub_one]
    apply List.map_congr_left
    intro i hi
    have e1 : i + 2 - 1 = i + 1 := by omega
    have e2 : (1 : ℕ) + i + 1 = i + 2 := by omega
    have e3 : (1 : ℕ) + i = i + 1 := by omega
    simp only [classicalGammaTerm, e1, e2, e3, getD_map_eval, List.getD_cons_succ,
      List.headI]

/-- C1 witness: the theorem instantiated at a concrete two-derivative input
whose first derivative is constantly one. -/
theorem smale_gamma_eq_classical_witness :
    (2 ≤ dfW.length ∧ dfW.headI 0 [] ≠ 0) ∧
      smale_gamma fW 0 dfW [] = smale_gamma_spec fW 0 dfW [] :=
  ⟨⟨by simp [dfW], by simp [dfW, d1W]⟩,
    (smale_gamma_eq_classical fW 0 dfW [] (by simp [dfW]) (by simp [dfW, d1W])).1⟩

/-- C2: with at least two derivatives, `smale_alpha` is exactly the product
of `smale_beta` and the value returned by `smale_gamma`. -/
theorem smale_alpha_eq_beta_mul_gamma (f : F) (x0 : ℂ) (df : List F)
    (args : List ℂ) (h : 2 ≤ df.length) :
    ∃ g, smale_gamma f x0 df args = some g ∧
      smale_alpha f x0 df args = some (smale_beta f x0 df args * g) := by
  obtain ⟨g, hg⟩ := smale_gamma_isSome f x0 df args h
  exact ⟨g, hg, by simp [smale_alpha, hg]⟩

/-- C2 witness: the theorem instantiated at a concrete two-derivative
input. -/
theorem smale_alpha_eq_beta_mul_gamma_witness :
    2 ≤ dfW.length ∧
      ∃ g, smale_gamma fW 0 dfW [] = some g ∧
        smale_alpha fW 0 dfW [] = some (smale_beta fW 0 dfW [] * g) :=
  ⟨by simp [dfW], smale_alpha_eq_beta_mul_gamma fW 0 dfW [] (by simp [dfW])⟩

/-- C5: with at least one derivative whose value at `x0` is nonzero,
`smale_beta` is the absolute value of `f(x0,*args) / df[0](x0,*args)`, the
magnitude of the plain Newton step. -/
theorem smale_beta_eq_abs_newton_step (f : F) (x0 : ℂ) (df : List F)
    (args : List ℂ) (h : 0 < df.length) (h0 : df.headI x0 args ≠ 0) :
    smale_beta f x0 df args =
      Complex.abs (f x0 args / df.getD 0 (fun _ _ => 0) x0 args) ∧
    smale_beta f x0 df args =
      Complex.abs (f x0 args) / Complex.abs (df.getD 0 (fun _ _ => 0) x0 args) := by
  cases df with
  | nil => simp at h
  | cons a t => exact ⟨rfl, by simp [smale_beta, map_div₀]⟩

/-- C5 witness: the theorem instantiated at a concrete input with first
derivative constantly one. -/
theorem smale_beta_eq_abs_newton_step_witness :
    (0 < dfW.length ∧ dfW.headI 0 [] ≠ 0) ∧
      smale_beta fW 0 dfW [] =
        Complex.abs (fW 0 [] / dfW.getD 0 (fun _ _ => 0) 0 []) :=
  ⟨⟨by simp [dfW], by simp [dfW, d1W]⟩,
    (smale_beta_eq_abs_newton_step fW 0 dfW [] (by simp [dfW])
      (by simp [dfW, d1W])).1⟩

/-- C6: called directly with fewer than two derivatives, `smale_gamma` fails
(returns `none`, the embedded image of the raised empty-reduction error)
rather than producing a value. -/
theorem smale_gamma_short_df_fails (f : F) (x0 : ℂ) (df : List F)
    (args : List ℂ) (h : df.length < 2) : smale_gamma f x0 df args = none := by
  cases df with
  | nil => rfl
  | cons a t =>
    cases t with
    | nil => rfl
    | cons b u => simp at h; omega

/-- C6 witness: the theorem instantiated at the empty derivative list. -/
theorem smale_gamma_short_df_fails_witness :
    ([] : List F).length < 2 ∧ smale_gamma fW 0 [] [] = none :=
  ⟨by simp, smale_gamma_short_df_fails fW 0 [] [] (by simp)⟩

/-- C9: `smale_gamma` never evaluates the target function: its value is the
same for any two target functions. -/
theorem smale_gamma_ignores_f (f1 f2 : F) (x0 : ℂ) (df : List F)
    (args : List ℂ) : smale_gamma f1 x0 df args = smale_gamma f2 x0 df args :=
  rfl

/-- C10: `smale_beta` only evaluates the first derivative: two derivative
lists of length at least one with equal first elements give identical
results. -/
theorem smale_beta_only_first_derivative (f : F) (x0 : ℂ) (df1 df2 : List F)
    (args : List ℂ) (h1 : 0 < df1.length) (h2 : 0 < df2.length)
    (hhead : df1.headI = df2.headI) :
    smale_beta f x0 df1 args = smale_beta f x0 df2 args := by
  unfold smale_beta
  rw [hhead]

/-- C10 witness: the theorem instantiated at two concrete lists sharing their
first element. -/
theorem smale_beta_only_first_derivative_witness :
    (0 < dfW.length ∧ 0 < ([d1W] : List F).length ∧
        dfW.headI = ([d1W] : List F).headI) ∧
      smale_beta fW 0 dfW [] = smale_beta fW 0 [d1W] [] :=
  ⟨⟨by simp [dfW], by simp, rfl⟩,
    smale_beta_only_first_derivative fW 0 dfW [d1W] [] (by simp [dfW])
      (by simp) rfl⟩

/-- C3: `smale_newton` always reaches the external solver, calling it with
`fprime = df[0]` when `df` is nonempty and `None` otherwise, passing `f`,
`x0`, `args`, `tol` and `maxiter` through unchanged, and returns the
solver's result (success or failure alike) unaltered, whatever warnings were
emitted before. -/
theorem smale_newton_calls_solver (newton : NewtonSolver) (f : F) (x0 : ℂ)
    (df : List F) (args : List ℂ) (tol : ℝ) (maxiter : ℕ) :
    ∃ w, smale_newton newton f x0 df args tol maxiter =
      some (w, newton ⟨f, x0, if 0 < df.length then some df.headI else none,
        args, tol, maxiter⟩) := by
  by_cases hlen : df.length < 2
  · exact ⟨[SmaleWarning.notEnoughDerivatives], by simp [smale_newton, hlen]⟩
  · obtain ⟨g, hg⟩ := smale_gamma_isSome f x0 df args (by omega)
    exact ⟨if 0.15767078078675478 < smale_beta f x0 df args * g then
        [SmaleWarning.notApproximateSolution] else [],
      by simp [smale_newton, hlen, smale_alpha, hg]⟩

/-- C4: with at least two derivatives, the "may not be an approximate
solution" warning is emitted exactly when alpha strictly exceeds the constant
`0.15767078078675478` (reproduced bit-for-bit from the source); when alpha is
at most the constant no warning at all is emitted, and in both cases the
Newton iteration still runs. -/
theorem smale_newton_threshold_warning (newton : NewtonSolver) (f : F)
    (x0 : ℂ) (df : List F) (args : List ℂ) (tol : ℝ) (maxiter : ℕ)
    (h : 2 ≤ df.length) :
    ∃ a, smale_alpha f x0 df args = some a ∧
      smale_newton newton f x0 df args tol maxiter =
        some ((if 0.15767078078675478 < a then
            [SmaleWarning.notApproximateSolution] else []),
          newton ⟨f, x0, some df.headI, args, tol, maxiter⟩) := by
  obtain ⟨g, hg⟩ := smale_gamma_isSome f x0 df args h
  refine ⟨smale_beta f x0 df args * g, by simp [smale_alpha, hg], ?_⟩
  have hlen : ¬df.length < 2 := by omega
  have hpos : 0 < df.length := by omega
  simp [smale_newton, hlen, hpos, smale_alpha, hg]

/-- C4 witness: the theorem instantiated at a concrete two-derivative
input. -/
theorem smale_newton_threshold_warning_witness :
    2 ≤ dfW.length ∧
      ∃ a, smale_alpha fW 0 dfW [] = some a ∧
        smale_newton ntW fW 0 dfW [] 1 50 =
          some ((if 0.15767078078675478 < a then
              [SmaleWarning.notApproximateSolution] else []),
            ntW ⟨fW, 0, some dfW.headI, [], 1, 50⟩) :=
  ⟨by simp [dfW],
    smale_newton_threshold_warning ntW fW 0 dfW [] 1 50 (by simp [dfW])⟩

/-- C7: with fewer than two derivatives (including none at all), the
"insufficient derivatives" warning is the only diagnostic, the certification
computation is skipped, and the Newton iteration still runs, with `fprime`
equal to `df[0]` when one derivative is present and to `None` otherwise. -/
theorem smale_newton_insufficient_derivatives (newton : NewtonSolver) (f : F)
    (x0 : ℂ) (df : List F) (args : List ℂ) (tol : ℝ) (maxiter : ℕ)
    (h : df.length < 2) :
    smale_newton newton f x0 df args tol maxiter =
      some ([SmaleWarning.notEnoughDerivatives],
        newton ⟨f, x0, if 0 < df.length then some df.headI else none, args,
          tol, maxiter⟩) := by
  simp [smale_newton, h]

/-- C7 witness: the theorem instantiated at the empty derivative list. -/
theorem smale_newton_insufficient_derivatives_witness :
    ([] : List F).length < 2 ∧
      smale_newton ntW fW 0 [] [] 1 50 =
        some ([SmaleWarning.notEnoughDerivatives],
          ntW ⟨fW, 0, if 0 < ([] : List F).length then some ([] : List F).headI
            else none, [], 1, 50⟩) :=
  ⟨by simp, smale_newton_insufficient_derivatives ntW fW 0 [] [] 1 50 (by simp)⟩

/-- C8: whenever they return a value, `smale_beta` and `smale_gamma` are
non-negative real numbers, and `smale_alpha`, their product, is too. -/
theorem smale_values_nonneg (f : F) (x0 : ℂ) (df : List F) (args : List ℂ) :
    0 ≤ smale_beta f x0 df args ∧
      (∀ g, smale_gamma f x0 df args = some g → 0 ≤ g) ∧
      (∀ a, smale_alpha f x0 df args = some a → 0 ≤ a) := by
  have hbeta : 0 ≤ smale_beta f x0 df args := AbsoluteValue.nonneg _ _
  have hgamma : ∀ g, smale_gamma f x0 df args = some g → 0 ≤ g := by
    intro g hg
    exact listMax_nonneg (gammaScan_nonneg _ _ _) hg
  refine ⟨hbeta, hgamma, ?_⟩
  intro a ha
  rw [smale_alpha] at ha
  obtain ⟨g, hg, hval⟩ := Option.map_eq_some'.mp ha
  rw [← hval]
  exact mul_nonneg hbeta (hgamma g hg)

/-- C8 witness: the theorem applied at a concrete input where alpha
evaluates to zero. -/
theorem smale_values_nonneg_witness :
    smale_alpha fW 0 dfW [] = some 0 ∧ (0 : ℝ) ≤ 0 := by
  have heval : smale_alpha fW 0 dfW [] = some 0 := by
    norm_num [smale_alpha, smale_gamma, smale_beta, gammaScan, listMax, fW,
      dfW, d1W, d2W]
  exact ⟨heval, (smale_values_nonneg fW 0 dfW []).2.2 0 heval⟩

end Smale
